import Mathlib

/-!
Verification development for the listen repository.

Part A embeds the TypeScript UI helpers found in the source
(formatError, renderStatus, TransactionLink, formatNumber) as Lean
functions over strings and rationals.

Part B embeds the cargo manifest of the listen-data crate (features,
optional dependencies, binary targets) as concrete Lean data.

Part C models the ingestion-decode-sink pipeline.  The pipeline code
itself is not part of the provided sources (only its manifest is), so
those definitions are modelled from the specification text; each such
definition says so in its doc comment.
-/

namespace Listen

/-! ## Part A: string helpers (JavaScript semantics) -/

/-- Left brace character, written by code point to keep sources plain. -/
def lbraceC : Char := Char.ofNat 123

/-- Right brace character, written by code point. -/
def rbraceC : Char := Char.ofNat 125

/-- Prefix test on character lists: isPre p s is true when p is an
initial segment of s. -/
def isPre : List Char → List Char → Bool
  | [], _ => true
  | _ :: _, [] => false
  | a :: as, b :: bs => a = b && isPre as bs

/-- Substring test on character lists, the semantics of the JavaScript
String.prototype.includes: some suffix of s starts with p. -/
def hasSub (s p : List Char) : Bool :=
  match s with
  | [] => isPre p []
  | _ :: rest => isPre p s || hasSub rest p

/-- String-level wrapper for hasSub. -/
def strIncludes (s p : String) : Bool := hasSub s.data p.data

/-- Index (from the front) of the last right brace in a list that
contains no newline cut: lastRBrace cs returns the position of the last
rbraceC in cs, if any. -/
def lastRBrace (cs : List Char) : Option Nat :=
  match cs with
  | [] => none
  | c :: rest =>
      match lastRBrace rest with
      | some k => some (k + 1)
      | none => if c = rbraceC then some 0 else none

/-- The first match of the JavaScript regular expression /\x7b.*\x7d/ in
a character list.  The dot does not cross newlines, the star is greedy,
and the scan takes the leftmost position where a match starts: at each
left brace, the match extends to the last right brace on the same line,
if one exists; otherwise scanning continues to the right. -/
def jsMatchBrace (cs : List Char) : Option (List Char) :=
  match cs with
  | [] => none
  | c :: rest =>
      if c = lbraceC then
        let seg := rest.takeWhile (fun d => d ≠ '\n')
        match lastRBrace seg with
        | some k => some (lbraceC :: seg.take (k + 1))
        | none => jsMatchBrace rest
      else jsMatchBrace rest

/-! ## JSON model

A model of the JavaScript JSON.parse / JSON.stringify pair, for the
fragment formatError relies on.  Numbers keep their source token; a
number is falsy exactly when its mantissa has no nonzero digit. -/

/-- JSON values.  Numbers carry the raw numeric token. -/
inductive Json where
  | null : Json
  | bool (b : Bool) : Json
  | num (raw : String) : Json
  | str (s : String) : Json
  | arr (xs : List Json) : Json
  | obj (fields : List (String × Json)) : Json
deriving Repr

/-- JavaScript truthiness of a JSON value: null, false, zero numbers
and the empty string are falsy; arrays and objects are truthy. -/
def Json.truthy : Json → Bool
  | .null => false
  | .bool b => b
  | .num raw =>
      (raw.data.takeWhile (fun c => c ≠ 'e' ∧ c ≠ 'E')).any
        (fun c => '1' ≤ c && c ≤ '9')
  | .str s => s ≠ ""
  | .arr _ => true
  | .obj _ => true

/-- Property access p?.error on a parsed value: defined only on
objects; with duplicate keys the last binding wins, as in JavaScript. -/
def Json.errField : Json → Option Json
  | .obj fields =>
      (fields.reverse.find? (fun p => p.1 = "error")).map (fun p => p.2)
  | _ => none

/-- Is c a JSON whitespace character. -/
def jsonWs (c : Char) : Bool := c = ' ' || c = '\t' || c = '\n' || c = '\r'

/-- Drop leading JSON whitespace. -/
def skipWs (cs : List Char) : List Char := cs.dropWhile jsonWs

/-- Decimal digit test. -/
def isDig (c : Char) : Bool := '0' ≤ c && c ≤ '9'

/-- Hexadecimal digit value, if c is a hex digit. -/
def hexVal (c : Char) : Option Nat :=
  if '0' ≤ c ∧ c ≤ '9' then some (c.toNat - '0'.toNat)
  else if 'a' ≤ c ∧ c ≤ 'f' then some (c.toNat - 'a'.toNat + 10)
  else if 'A' ≤ c ∧ c ≤ 'F' then some (c.toNat - 'A'.toNat + 10)
  else none

/-- Parse the body of a JSON string literal (after the opening quote),
returning the decoded characters and the input past the closing quote. -/
def parseStrBody (fuel : Nat) (cs : List Char) : Option (List Char × List Char) :=
  match fuel with
  | 0 => none
  | fuel + 1 =>
    match cs with
    | [] => none
    | '"' :: rest => some ([], rest)
    | '\\' :: e :: rest =>
        let cont (c : Char) (rs : List Char) : Option (List Char × List Char) :=
          (parseStrBody fuel rs).map (fun p => (c :: p.1, p.2))
        match e with
        | '"' => cont '"' rest
        | '\\' => cont '\\' rest
        | '/' => cont '/' rest
        | 'b' => cont (Char.ofNat 8) rest
        | 'f' => cont (Char.ofNat 12) rest
        | 'n' => cont '\n' rest
        | 'r' => cont '\r' rest
        | 't' => cont '\t' rest
        | 'u' =>
            match rest with
            | h1 :: h2 :: h3 :: h4 :: rs =>
                match hexVal h1, hexVal h2, hexVal h3, hexVal h4 with
                | some a, some b, some c, some d =>
                    cont (Char.ofNat (((a * 16 + b) * 16 + c) * 16 + d)) rs
                | _, _, _, _ => none
            | _ => none
        | _ => none
    | c :: rest =>
        (parseStrBody fuel rest).map (fun p => (c :: p.1, p.2))

/-- Parse a JSON number token per the JSON grammar: an optional minus,
an integer part without leading zeros, optional fraction, optional
exponent.  Returns the raw token and the rest of the input. -/
def parseNumTok (cs : List Char) : Option (List Char × List Char) :=
  let sign : List Char × List Char :=
    match cs with
    | '-' :: rest => (['-'], rest)
    | _ => ([], cs)
  let afterSign := sign.2
  let intPart : Option (List Char × List Char) :=
    match afterSign with
    | '0' :: rest => some (['0'], rest)
    | c :: rest =>
        if isDig c ∧ c ≠ '0' then
          some (c :: rest.takeWhile isDig, rest.dropWhile isDig)
        else none
    | [] => none
  match intPart with
  | none => none
  | some (ip, afterInt) =>
    let fracPart : Option (List Char × List Char) :=
      match afterInt with
      | '.' :: rest =>
          match rest.takeWhile isDig with
          | [] => none
          | ds => some ('.' :: ds, rest.dropWhile isDig)
      | _ => some ([], afterInt)
    match fracPart with
    | none => none
    | some (fp, afterFrac) =>
      let expPart : Option (List Char × List Char) :=
        match afterFrac with
        | c :: rest =>
            if c = 'e' ∨ c = 'E' then
              let signedRest :=
                match rest with
                | s :: rs => if s = '+' ∨ s = '-' then ([s], rs) else ([], rest)
                | [] => ([], rest)
              match signedRest.2.takeWhile isDig with
              | [] => none
              | ds => some (c :: signedRest.1 ++ ds, signedRest.2.dropWhile isDig)
            else some ([], afterFrac)
        | [] => some ([], afterFrac)
      match expPart with
      | none => none
      | some (ep, afterExp) => some (sign.1 ++ ip ++ fp ++ ep, afterExp)

mutual

/-- Parse one JSON value, fuel-bounded recursive descent. -/
def parseVal (fuel : Nat) (cs : List Char) : Option (Json × List Char) :=
  match fuel with
  | 0 => none
  | fuel + 1 =>
    match skipWs cs with
    | 'n' :: 'u' :: 'l' :: 'l' :: rest => some (.null, rest)
    | 't' :: 'r' :: 'u' :: 'e' :: rest => some (.bool true, rest)
    | 'f' :: 'a' :: 'l' :: 's' :: 'e' :: rest => some (.bool false, rest)
    | '"' :: rest =>
        (parseStrBody (rest.length + 1) rest).map
          (fun p => (.str (String.mk p.1), p.2))
    | c :: rest =>
        if c = lbraceC then
          match skipWs rest with
          | d :: rest2 =>
              if d = rbraceC then some (.obj [], rest2)
              else (parseFields fuel (d :: rest2)).map
                (fun p => (.obj p.1, p.2))
          | [] => none
        else if c = '[' then
          match skipWs rest with
          | ']' :: rest2 => some (.arr [], rest2)
          | other => (parseItems fuel other).map (fun p => (.arr p.1, p.2))
        else
          (parseNumTok (c :: rest)).map
            (fun p => (.num (String.mk p.1), p.2))
    | [] => none

/-- Parse a nonempty comma-separated field list of a JSON object,
consuming the closing right brace. -/
def parseFields (fuel : Nat) (cs : List Char) : Option (List (String × Json) × List Char) :=
  match fuel with
  | 0 => none
  | fuel + 1 =>
    match skipWs cs with
    | '"' :: rest =>
        match parseStrBody (rest.length + 1) rest with
        | none => none
        | some (key, afterKey) =>
          match skipWs afterKey with
          | ':' :: afterColon =>
              match parseVal fuel afterColon with
              | none => none
              | some (v, afterVal) =>
                match skipWs afterVal with
                | ',' :: afterComma =>
                    (parseFields fuel afterComma).map
                      (fun p => ((String.mk key, v) :: p.1, p.2))
                | d :: rest2 =>
                    if d = rbraceC then some ([(String.mk key, v)], rest2)
                    else none
                | [] => none
          | _ => none
    | _ => none

/-- Parse a nonempty comma-separated item list of a JSON array,
consuming the closing bracket. -/
def parseItems (fuel : Nat) (cs : List Char) : Option (List Json × List Char) :=
  match fuel with
  | 0 => none
  | fuel + 1 =>
    match parseVal fuel cs with
    | none => none
    | some (v, afterVal) =>
      match skipWs afterVal with
      | ',' :: afterComma =>
          (parseItems fuel afterComma).map (fun p => (v :: p.1, p.2))
      | ']' :: rest2 => some ([v], rest2)
      | _ => none

end

/-- JSON.parse on a whole string: one value, surrounded only by
whitespace; anything else throws in JavaScript, modelled as none. -/
def jsonParse (s : String) : Option Json :=
  match parseVal (s.data.length + 1) s.data with
  | some (v, rest) => if skipWs rest = [] then some v else none
  | none => none

/-- Escape one character for a JSON string literal. -/
def escChar (c : Char) : List Char :=
  if c = '"' then ['\\', '"']
  else if c = '\\' then ['\\', '\\']
  else if c = '\n' then ['\\', 'n']
  else if c = '\r' then ['\\', 'r']
  else if c = '\t' then ['\\', 't']
  else if c = Char.ofNat 8 then ['\\', 'b']
  else if c = Char.ofNat 12 then ['\\', 'f']
  else if c.toNat < 32 then
    let hex (n : Nat) : Char :=
      if n < 10 then Char.ofNat ('0'.toNat + n) else Char.ofNat ('a'.toNat + n - 10)
    ['\\', 'u', '0', '0', hex (c.toNat / 16), hex (c.toNat % 16)]
  else [c]

/-- Serialize a decoded string back to a JSON string literal. -/
def quoteStr (s : String) : String :=
  String.mk ('"' :: s.data.flatMap escChar ++ ['"'])

/-- Comma-join a list of strings. -/
def commaJoin : List String → String
  | [] => ""
  | [x] => x
  | x :: xs => x ++ "," ++ commaJoin xs

/-- JSON.stringify, fuel-bounded over the value depth; fuel 0 renders
the empty string and is never reached when the fuel exceeds the depth
of the value. -/
def stringifyF (fuel : Nat) : Json → String
  | .null => "null"
  | .bool true => "true"
  | .bool false => "false"
  | .num raw => raw
  | .str s => quoteStr s
  | .arr xs =>
      match fuel with
      | 0 => ""
      | fuel + 1 => "[" ++ commaJoin (xs.map (stringifyF fuel)) ++ "]"
  | .obj fields =>
      match fuel with
      | 0 => ""
      | fuel + 1 =>
          String.singleton lbraceC ++
            commaJoin (fields.map
              (fun p => quoteStr p.1 ++ ":" ++ stringifyF fuel p.2)) ++
            String.singleton rbraceC

/-! ## formatError (src/unnamed/part_000, lines 97 to 117) -/

/-- The formatError function of the pipeline step UI.  The try/catch
around JSON.parse is modelled by the none branch of jsonParse; the
regular expression match is jsMatchBrace; stringify is fuel-bounded by
the length of the matched text, which exceeds the depth of any value
parsed from it. -/
def formatError (error : String) : String :=
  if strIncludes error "insufficient funds" then "Insufficient balance"
  else if strIncludes error "0x1771" then "Slippage tolerance exceeded"
  else
    match jsMatchBrace error.data with
    | some m =>
        match jsonParse (String.mk m) with
        | some parsedError =>
            match parsedError.errField with
            | some v => if v.truthy then stringifyF (m.length + 1) v else error
            | none => error
        | none => error
    | none => error

/-! ## formatNumber (DexscreenerDisplay)

JavaScript numbers are modelled as rationals; toFixed(2) is modelled as
rounding to the nearest hundredth, halves rounded up, which is the
ECMAScript choice of the larger candidate. -/

/-- Two-digit zero-padded rendering of a value below 100. -/
def pad2 (n : Nat) : String := if n < 10 then "0" ++ toString n else toString n

/-- Number.prototype.toFixed(2) on a rational: round to a whole number
of hundredths, halves up, then print with two digits after the dot. -/
def toFixed2 (q : ℚ) : String :=
  let c : ℤ := Int.floor (q * 100 + 1 / 2)
  if c < 0 then
    "-" ++ toString ((-c).toNat / 100) ++ "." ++ pad2 ((-c).toNat % 100)
  else
    toString (c.toNat / 100) ++ "." ++ pad2 (c.toNat % 100)

/-- The formatNumber function of DexscreenerDisplay. -/
def formatNumber (num : ℚ) : String :=
  if num ≥ 1000000000 then "$" ++ (toFixed2 (num / 1000000000) ++ "B")
  else if num ≥ 1000000 then "$" ++ (toFixed2 (num / 1000000) ++ "M")
  else if num ≥ 1000 then "$" ++ (toFixed2 (num / 1000) ++ "K")
  else "$" ++ toFixed2 num

/-! ## renderStatus and TransactionLink (src/unnamed/part_000) -/

/-- The react-icons icons used by the component. -/
inductive Icon where
  | faSpinner : Icon
  | faCheckCircle : Icon
  | faTimesCircle : Icon
  | faBan : Icon
deriving Repr, DecidableEq

/-- The span rendered for a recognized status: its class string, its
icon and its visible text. -/
structure StatusSpan where
  className : String
  icon : Icon
  label : String
deriving Repr, DecidableEq

/-- The renderStatus switch: the four recognized status strings render
a span; every other string falls through the switch, which in
JavaScript returns undefined, modelled as none. -/
def renderStatus (status : String) : Option StatusSpan :=
  if status = "Pending" then
    some { className := "text-yellow-300 flex items-center gap-1",
           icon := .faSpinner, label := "Pending" }
  else if status = "Completed" then
    some { className := "text-green-300 flex items-center gap-1",
           icon := .faCheckCircle, label := "Completed" }
  else if status = "Failed" then
    some { className := "text-red-300 flex items-center gap-1",
           icon := .faTimesCircle, label := "Failed:" }
  else if status = "Cancelled" then
    some { className := "text-gray-300 flex items-center gap-1",
           icon := .faBan, label := "Cancelled" }
  else none

/-- The text shown inside the hash anchor: slice(0, 6), an ellipsis,
then slice(-4), with the JavaScript clamping semantics of slice. -/
def jsSliceText (h : String) : String :=
  String.mk (h.data.take 6) ++ "..." ++
    String.mk (h.data.drop (h.data.length - 4))

/-- The anchor rendered for a transaction hash. -/
structure HashLink where
  href : String
  text : String
deriving Repr, DecidableEq

/-- What TransactionLink renders: the status indicator, the optional
hash anchor, and the optional formatted error text. -/
structure TransactionLinkView where
  statusIndicator : Option StatusSpan
  hashLink : Option HashLink
  errorText : Option String
deriving Repr, DecidableEq

/-- The TransactionLink component.  The JSX guards are JavaScript
truthiness tests, so a null or empty hash renders no anchor and a null
or empty error renders no error span. -/
def transactionLink (status : String) (transactionHash : Option String)
    (error : Option String) : TransactionLinkView :=
  { statusIndicator := renderStatus status
    hashLink :=
      match transactionHash with
      | some h =>
          if h = "" then none
          else some
            { href :=
                if isPre "0x".data h.data then
                  "https://blockscan.com/tx/" ++ h
                else
                  "https://solscan.io/tx/" ++ h,
              text := jsSliceText h }
      | none => none
    errorText :=
      match error with
      | some e => if e = "" then none else some (formatError e)
      | none => none }

/-! ## Part B: the listen-data cargo manifest (src/listen-data/Cargo.toml) -/

/-- A binary target of the manifest. -/
structure BinTarget where
  name : String
  path : String
  required_features : List String
deriving Repr, DecidableEq

/-- The parts of a cargo manifest that govern feature selection:
declared features with the optional dependencies they enable, default
features, dependencies marked optional, and binary targets. -/
structure CargoManifest where
  package_name : String
  default_features : List String
  features : List (String × List String)
  optional_deps : List String
  bins : List BinTarget
deriving Repr, DecidableEq

/-- The manifest of the listen-data crate, transcribed from
src/listen-data/Cargo.toml. -/
def listenDataManifest : CargoManifest :=
  { package_name := "listen-data"
    default_features := ["geyser"]
    features :=
      [("geyser",
        ["carbon-yellowstone-grpc-datasource", "yellowstone-grpc-proto"]),
       ("rpc",
        ["carbon-rpc-block-subscribe-datasource",
         "carbon-rpc-program-subscribe-datasource",
         "carbon-rpc-transaction-crawler-datasource"])]
    optional_deps :=
      ["carbon-rpc-block-subscribe-datasource",
       "carbon-rpc-program-subscribe-datasource",
       "carbon-rpc-transaction-crawler-datasource",
       "carbon-yellowstone-grpc-datasource",
       "yellowstone-grpc-proto"]
    bins :=
      [{ name := "indexer", path := "src/bin/indexer.rs",
         required_features := ["geyser"] },
       { name := "rpc-crawler", path := "src/bin/rpc_crawler.rs",
         required_features := ["rpc"] },
       { name := "main", path := "src/main.rs",
         required_features := [] }] }

/-- The selection discipline the spec claims: the data-source variant
choice is made at construction via a runtime configuration value and
not by compile-time conditional inclusion.  Following the words of the
spec, a manifest satisfies this when no binary target is gated behind
required cargo features and no dependency is conditionally compiled as
optional.  This definition follows the claim text, for comparison with
the transcribed manifest. -/
def runtimeSelectedDataSource (m : CargoManifest) : Bool :=
  m.bins.all (fun b => b.required_features.isEmpty) && m.optional_deps.isEmpty

/-! ## Part C: the ingestion-decode-sink pipeline

The pipeline sources are not part of the provided tree (only the cargo
manifest is), so every definition in this part is modelled from the
specification text, as its doc comment records. -/

/-- Modelled from the spec: the RawAccountUpdate record of the data
model section; the pipeline sources carrying it are missing from the
tree.  Addresses and program ids are abstracted as naturals, raw bytes
as a list of byte values. -/
structure RawAccountUpdate where
  owning_program_id : Nat
  account_address : Nat
  slot : Nat
  write_version : Nat
  lamports : Nat
  raw_bytes : List Nat
  is_startup : Bool
deriving Repr, DecidableEq

/-- Modelled from the spec: the enumerated event kinds of the
DecodedEvent record. -/
inductive EventKind where
  | initializeEvt : EventKind
  | swapEvt : EventKind
  | addLiquidityEvt : EventKind
  | removeLiquidityEvt : EventKind
  | otherEvt : EventKind
deriving Repr, DecidableEq

/-- Modelled from the spec: the two decode error classes of the error
taxonomy, Unrecognized and Malformed. -/
inductive DecodeError where
  | unrecognized : DecodeError
  | malformed : DecodeError
deriving Repr, DecidableEq

/-- Modelled from the spec: the DecodedEvent record, with its envelope
(protocol tag, entity key, slot, write version, nullable source
signature) and its numeric fields as fixed-precision integers. -/
structure DecodedEvent where
  protocol_tag : Nat
  event_kind : EventKind
  entity_key : Nat
  amount_in : Nat
  amount_out : Nat
  total_flow : Nat
  slot : Nat
  write_version : Nat
  source_signature : Option Nat
deriving Repr, DecidableEq

/-- Modelled from the spec: the payload a decoder extracts from the
raw bytes alone, before the envelope is attached. -/
structure DecodedPayload where
  event_kind : EventKind
  amount_in : Nat
  amount_out : Nat
  total_flow : Nat
deriving Repr, DecidableEq

/-- Little-endian fixed-width integer reading of a byte list. -/
def leU64 (bs : List Nat) : Nat :=
  bs.foldr (fun b acc => acc * 256 + b % 256) 0

/-- Modelled from the spec: the discriminator table of the decoder
set; unknown tags are rejected for forward compatibility. -/
def kindOfDisc (d : Nat) : Option EventKind :=
  if d = 0 then some .initializeEvt
  else if d = 1 then some .swapEvt
  else if d = 2 then some .addLiquidityEvt
  else if d = 3 then some .removeLiquidityEvt
  else if d = 4 then some .otherEvt
  else none

/-- Modelled from the spec: the pure byte-level decoder.  A leading
discriminator selects the event kind (unknown tag gives Unrecognized);
two fixed-width 64-bit little-endian amounts follow (truncation gives
Malformed); their sum is computed with an explicit 64-bit overflow
check, overflow giving Malformed rather than a crash. -/
def decodeBytes (bs : List Nat) : Except DecodeError DecodedPayload :=
  match bs with
  | [] => .error .malformed
  | d :: rest =>
      match kindOfDisc (d % 256) with
      | none => .error .unrecognized
      | some k =>
          if rest.length < 16 then .error .malformed
          else
            let a := leU64 (rest.take 8)
            let b := leU64 ((rest.drop 8).take 8)
            if a + b < 2 ^ 64 then
              .ok { event_kind := k, amount_in := a, amount_out := b,
                    total_flow := a + b }
            else .error .malformed

/-- Modelled from the spec: the decoder contract of the decoder set,
decode(raw_update) returning a typed event or a DecodeError.  The
payload comes from the raw bytes alone; the envelope is copied from
the update. -/
def decode (u : RawAccountUpdate) : Except DecodeError DecodedEvent :=
  (decodeBytes u.raw_bytes).map (fun p =>
    { protocol_tag := u.owning_program_id
      event_kind := p.event_kind
      entity_key := u.account_address
      amount_in := p.amount_in
      amount_out := p.amount_out
      total_flow := p.total_flow
      slot := u.slot
      write_version := u.write_version
      source_signature := none })

/-- Modelled from the spec: a sequence of decoder invocations, one per
raw update, each a plain function application with no carried state. -/
def runDecodes (us : List RawAccountUpdate) : List (Except DecodeError DecodedEvent) :=
  us.map decode

/-- Strict order on (slot, write_version) pairs: slot first, write
version as the intra-slot tiebreaker. -/
def svGt (a b : Nat × Nat) : Bool :=
  b.1 < a.1 || (a.1 = b.1 && b.2 < a.2)

/-- Non-strict companion of svGt. -/
def svLe (a b : Nat × Nat) : Bool :=
  a.1 < b.1 || (a.1 = b.1 && a.2 ≤ b.2)

/-- Modelled from the spec: the per-key ordering gate of the
invariants section; with no previously applied value every update
passes, otherwise only a strictly greater (slot, write_version). -/
def gateOk : Option (Nat × Nat) → Nat × Nat → Bool
  | none, _ => true
  | some l, sv => svGt sv l

/-- Modelled from the spec: the CacheEntry record of the data model. -/
structure CacheEntry where
  entity_key : Nat
  latest_state_snapshot : Nat × Nat
  updated_at_slot : Nat
deriving Repr, DecidableEq

/-- Modelled from the spec: the natural idempotency key of an
account-derived DecodedEvent, entity_key with slot and write version. -/
def ikey (ev : DecodedEvent) : Nat × Nat × Nat :=
  (ev.entity_key, ev.slot, ev.write_version)

/-- Modelled from the spec: one row of the durable columnar store,
keyed by the idempotency key. -/
structure Row where
  key : Nat × Nat × Nat
  event : DecodedEvent
deriving Repr, DecidableEq

/-- Modelled from the spec: the insert-or-replace upsert of the sink,
which never duplicates rows for the same idempotency key. -/
def upsertRow (store : List Row) (ev : DecodedEvent) : List Row :=
  if store.any (fun r => r.key = ikey ev) then
    store.map (fun r =>
      if r.key = ikey ev then { key := ikey ev, event := ev } else r)
  else store ++ [{ key := ikey ev, event := ev }]

/-- Modelled from the spec: the state the pipeline owns, namely the
per-key last applied (slot, write_version), the cache, the checkpoint,
the durable store contents and the dead-letter records. -/
structure PipelineState where
  lastApplied : Nat → Option (Nat × Nat)
  cache : Nat → Option CacheEntry
  checkpoint : Option (Nat × Nat)
  store : List Row
  deadLetters : List (List DecodedEvent)

/-- Modelled from the spec: processing one raw update through the
dispatcher gate and the decoder.  A stale update (gate closed) is a
no-op that emits nothing; a decode error is likewise isolated to a
skip; an applied update records its (slot, write_version) for its key,
refreshes the cache entry and emits the event for the sink. -/
def processUpdate (st : PipelineState) (u : RawAccountUpdate) :
    PipelineState × Option DecodedEvent :=
  let k := u.account_address
  let sv := (u.slot, u.write_version)
  if gateOk (st.lastApplied k) sv then
    match decode u with
    | .ok ev =>
        ({ st with
            lastApplied := fun x => if x = k then some sv else st.lastApplied x
            cache := fun x =>
              if x = k then
                some { entity_key := k
                       latest_state_snapshot := (ev.amount_in, ev.amount_out)
                       updated_at_slot := u.slot }
              else st.cache x },
         some ev)
    | .error _ => (st, none)
  else (st, none)

/-- Modelled from the spec: processing a list of raw updates in
arrival order, collecting the emitted events in order. -/
def processList (st : PipelineState) :
    List RawAccountUpdate → PipelineState × List DecodedEvent
  | [] => (st, [])
  | u :: us =>
      match processUpdate st u with
      | (st1, none) => processList st1 us
      | (st1, some ev) =>
          let r := processList st1 us
          (r.1, ev :: r.2)

/-- Maximum of two (slot, write_version) pairs in the svGt order. -/
def svMax (a b : Nat × Nat) : Nat × Nat := if svGt b a then b else a

/-- Fold one event key into a checkpoint value. -/
def ckptAdd (c : Option (Nat × Nat)) (sv : Nat × Nat) : Option (Nat × Nat) :=
  match c with
  | none => some sv
  | some m => some (svMax m sv)

/-- Modelled from the spec: the checkpoint after committing a batch,
the maximum (slot, write_version) over the previous checkpoint and the
committed events. -/
def ckptAfter (c : Option (Nat × Nat)) (evs : List DecodedEvent) :
    Option (Nat × Nat) :=
  evs.foldl (fun acc ev => ckptAdd acc (ev.slot, ev.write_version)) c

/-- Non-strict order on checkpoint values; the empty checkpoint is
below everything. -/
def ckptLe : Option (Nat × Nat) → Option (Nat × Nat) → Bool
  | none, _ => true
  | some _, none => false
  | some a, some b => svLe a b

/-- Modelled from the spec: committing one batch at the sink.  On a
successful durable-store write the rows are upserted, the cache entries
are refreshed and only then the checkpoint advances; on a failed write
the state is unchanged.  Cache writes are best-effort in the spec and
are not a failure mode of the model. -/
def commitBatch (st : PipelineState) (batch : List DecodedEvent)
    (storeOk : Bool) : PipelineState :=
  if storeOk then
    { st with
        store := batch.foldl upsertRow st.store
        cache := batch.foldl (fun c ev => fun x =>
          if x = ev.entity_key then
            some { entity_key := ev.entity_key
                   latest_state_snapshot := (ev.amount_in, ev.amount_out)
                   updated_at_slot := ev.slot }
          else c x) st.cache
        checkpoint := ckptAfter st.checkpoint batch }
  else st

/-- Modelled from the spec: a run of consecutive successful batch
commits. -/
def commitAll (st : PipelineState) (batches : List (List DecodedEvent)) :
    PipelineState :=
  batches.foldl (fun s b => commitBatch s b true) st

/-- Modelled from the spec: a process restart; the checkpoint, the
durable store and the dead letters are durable, the in-memory
dispatcher state and cache start empty, and the checkpoint is read
back to resume. -/
def restartPipeline (st : PipelineState) : PipelineState :=
  { lastApplied := fun _ => none
    cache := fun _ => none
    checkpoint := st.checkpoint
    store := st.store
    deadLetters := st.deadLetters }

/-- Modelled from the spec: the exponential backoff delay before retry
attempt number attempt, doubling each time from a base delay. -/
def backoffDelay (base attempt : Nat) : Nat := base * 2 ^ attempt

/-- Modelled from the spec: the first attempt index below the retry
ceiling on which the durable store write succeeds, attempts made in
order. -/
def firstOkAttempt (ok : Nat → Bool) (ceiling : Nat) : Option Nat :=
  (List.range ceiling).find? ok

/-- Modelled from the spec: the sink write loop with retries.  If some
attempt below the ceiling succeeds the batch commits; if every attempt
up to the ceiling fails the batch goes to a dead-letter record and the
state, the checkpoint included, does not advance. -/
def sinkWriteWithRetry (st : PipelineState) (batch : List DecodedEvent)
    (ok : Nat → Bool) (ceiling : Nat) : PipelineState :=
  match firstOkAttempt ok ceiling with
  | some _ => commitBatch st batch true
  | none => { st with deadLetters := batch :: st.deadLetters }

/-- A checkpoint value as a zero- or one-element history head. -/
def optList : Option (Nat × Nat) → List (Nat × Nat)
  | none => []
  | some l => [l]

/-- The (slot, write_version) keys of the emitted events of one entity
key, in emission order. -/
def perKeySvs (evs : List DecodedEvent) (k : Nat) : List (Nat × Nat) :=
  (evs.filter (fun e => e.entity_key = k)).map
    (fun e => (e.slot, e.write_version))

/-! Concrete fixtures used by the witnesses. -/

/-- A pipeline state whose every key has last applied (10, 5). -/
def stC1 : PipelineState :=
  { lastApplied := fun _ => some (10, 5), cache := fun _ => none,
    checkpoint := some (10, 5), store := [], deadLetters := [] }

/-- A duplicate update carrying exactly the last applied (10, 5). -/
def updC1 : RawAccountUpdate :=
  { owning_program_id := 1, account_address := 42, slot := 10,
    write_version := 5, lamports := 0,
    raw_bytes := [1, 1, 0, 0, 0, 0, 0, 0, 0, 2, 0, 0, 0, 0, 0, 0, 0],
    is_startup := false }

/-- Two raw updates that differ in every envelope field but carry the
same bytes. -/
def updC2a : RawAccountUpdate :=
  { owning_program_id := 1, account_address := 2, slot := 3,
    write_version := 4, lamports := 5, raw_bytes := [9],
    is_startup := false }

/-- Companion of updC2a with a different envelope. -/
def updC2b : RawAccountUpdate :=
  { owning_program_id := 6, account_address := 7, slot := 8,
    write_version := 9, lamports := 0, raw_bytes := [9],
    is_startup := true }

/-- A concrete decoded event for the sink idempotence witness. -/
def evC3 : DecodedEvent :=
  { protocol_tag := 1, event_kind := .swapEvt, entity_key := 5,
    amount_in := 10, amount_out := 20, total_flow := 30, slot := 100,
    write_version := 2, source_signature := none }

/-- An empty pipeline state with no checkpoint. -/
def stC4 : PipelineState :=
  { lastApplied := fun _ => none, cache := fun _ => none,
    checkpoint := none, store := [], deadLetters := [] }

/-- First event of the checkpoint witness batch. -/
def evC4a : DecodedEvent :=
  { protocol_tag := 1, event_kind := .swapEvt, entity_key := 5,
    amount_in := 1, amount_out := 2, total_flow := 3, slot := 100,
    write_version := 2, source_signature := none }

/-- Second event of the checkpoint witness batch, higher slot. -/
def evC4b : DecodedEvent :=
  { protocol_tag := 1, event_kind := .addLiquidityEvt, entity_key := 6,
    amount_in := 4, amount_out := 5, total_flow := 9, slot := 101,
    write_version := 0, source_signature := none }

/-- An empty pipeline state for the decode-error isolation witness. -/
def stC5 : PipelineState :=
  { lastApplied := fun _ => none, cache := fun _ => none,
    checkpoint := none, store := [], deadLetters := [] }

/-- An update whose discriminator byte is unknown, so decoding fails. -/
def updC5 : RawAccountUpdate :=
  { owning_program_id := 1, account_address := 7, slot := 3,
    write_version := 1, lamports := 0, raw_bytes := [9],
    is_startup := false }

/-- A pipeline state with a checkpoint, for the retry witness. -/
def stC6 : PipelineState :=
  { lastApplied := fun _ => none, cache := fun _ => none,
    checkpoint := some (50, 1), store := [], deadLetters := [] }

/-- The batch stuck behind a persistently failing durable store. -/
def evC6 : DecodedEvent :=
  { protocol_tag := 1, event_kind := .removeLiquidityEvt, entity_key := 9,
    amount_in := 7, amount_out := 8, total_flow := 15, slot := 55,
    write_version := 3, source_signature := none }

/-! ## Theorems -/

/-- C8: formatError is total — every input yields a string — and its
branches apply in fixed precedence: an input containing the substring
"insufficient funds" formats as "Insufficient balance" even when
"0x1771" is also present; otherwise an input containing "0x1771"
formats as "Slippage tolerance exceeded"; otherwise, when the brace
regular expression matches and the matched text parses as JSON with a
truthy error field, that field is re-serialized; in every other case,
a failed parse included (the thrown exception is caught), the input is
returned unchanged. -/
theorem formatError_cases (s : String) :
    (strIncludes s "insufficient funds" = true →
      formatError s = "Insufficient balance") ∧
    (strIncludes s "insufficient funds" = false →
      strIncludes s "0x1771" = true →
      formatError s = "Slippage tolerance exceeded") ∧
    (strIncludes s "insufficient funds" = false →
      strIncludes s "0x1771" = false →
      (jsMatchBrace s.data = none → formatError s = s) ∧
      (∀ m, jsMatchBrace s.data = some m →
        (jsonParse (String.mk m) = none → formatError s = s) ∧
        (∀ j, jsonParse (String.mk m) = some j →
          (Json.errField j = none → formatError s = s) ∧
          (∀ v, Json.errField j = some v →
            (Json.truthy v = true →
              formatError s = stringifyF (m.length + 1) v) ∧
            (Json.truthy v = false → formatError s = s))))) := by
  refine ⟨fun h1 => by simp [formatError, h1],
          fun h1 h2 => by simp [formatError, h1, h2],
          fun h1 h2 => ⟨?_, ?_⟩⟩
  · intro hm
    simp [formatError, h1, h2, hm]
  · intro m hm
    refine ⟨fun hp => by simp [formatError, h1, h2, hm, hp], ?_⟩
    intro j hp
    refine ⟨fun he => by simp [formatError, h1, h2, hm, hp, he], ?_⟩
    intro v he
    exact ⟨fun ht => by simp [formatError, h1, h2, hm, hp, he, ht],
           fun ht => by simp [formatError, h1, h2, hm, hp, he, ht]⟩

/-- Witness for C8 at a concrete input holding both recognized
substrings: the insufficient-funds branch takes precedence. -/
theorem formatError_cases_witness :
    strIncludes "tx: insufficient funds near 0x1771" "insufficient funds" = true ∧
    formatError "tx: insufficient funds near 0x1771" = "Insufficient balance" :=
  ⟨by decide, (formatError_cases "tx: insufficient funds near 0x1771").1 (by decide)⟩

/-- C9: formatNumber always returns a string beginning with a dollar
sign and selects exactly one branch by descending thresholds: at or
above one billion the value is scaled by 1e9 and suffixed B, otherwise
at or above one million scaled by 1e6 and suffixed M, otherwise at or
above one thousand scaled by 1e3 and suffixed K, otherwise the value
itself is rendered to two decimals with no suffix. -/
theorem formatNumber_spec (n : ℚ) :
    (∃ t, formatNumber n = "$" ++ t) ∧
    (1000000000 ≤ n →
      formatNumber n = "$" ++ (toFixed2 (n / 1000000000) ++ "B")) ∧
    (n < 1000000000 → 1000000 ≤ n →
      formatNumber n = "$" ++ (toFixed2 (n / 1000000) ++ "M")) ∧
    (n < 1000000 → 1000 ≤ n →
      formatNumber n = "$" ++ (toFixed2 (n / 1000) ++ "K")) ∧
    (n < 1000 → formatNumber n = "$" ++ toFixed2 n) := by
  refine ⟨?_, ?_, ?_, ?_, ?_⟩
  · unfold formatNumber
    split
    · exact ⟨_, rfl⟩
    · split
      · exact ⟨_, rfl⟩
      · split
        · exact ⟨_, rfl⟩
        · exact ⟨_, rfl⟩
  · intro h1
    rw [formatNumber, if_pos h1]
  · intro h1 h2
    rw [formatNumber, if_neg (not_le.mpr h1), if_pos h2]
  · intro h1 h2
    rw [formatNumber,
      if_neg (not_le.mpr (h1.trans (by norm_num))),
      if_neg (not_le.mpr h1), if_pos h2]
  · intro h1
    rw [formatNumber,
      if_neg (not_le.mpr (h1.trans (by norm_num))),
      if_neg (not_le.mpr (h1.trans (by norm_num))),
      if_neg (not_le.mpr h1)]

/-- Witness for C9 at 1234: the thousands branch renders one and
twenty-three hundredths with suffix K. -/
theorem formatNumber_spec_witness :
    formatNumber 1234 = "$" ++ (toFixed2 (1234 / 1000) ++ "K") ∧
    formatNumber 1234 = "$1.23K" := by
  have h := (formatNumber_spec 1234).2.2.2.1 (by norm_num) (by norm_num)
  refine ⟨h, ?_⟩
  rw [h]
  have e1 : ((1234:ℚ)/1000) * 100 + 1/2 = 1239/10 := by norm_num
  have e2 : (Int.floor ((1239:ℚ)/10)) = 123 := by norm_num
  simp only [toFixed2, e1, e2]
  rfl

/-- C10 counterexample: an empty transaction hash is non-null, yet the
component renders no anchor for it, because the JSX guard tests
JavaScript truthiness rather than null alone. -/
theorem transactionLink_counterexample :
    (some "" ≠ (none : Option String)) ∧
    (transactionLink "Pending" (some "") none).hashLink = none :=
  ⟨by decide, rfl⟩

/-- C10 (amended): renderStatus renders an indicator exactly for the
four statuses Pending, Completed, Failed and Cancelled and falls
through to undefined for every other status string; TransactionLink
always renders the renderStatus result, renders the transaction-hash
anchor to blockscan.com when the hash starts with 0x and to solscan.io
otherwise whenever the hash is non-null and nonempty, and renders the
formatted error whenever the error is non-null and nonempty. -/
theorem renderStatus_fallthrough :
    (∀ st : String, st ≠ "Pending" → st ≠ "Completed" → st ≠ "Failed" →
      st ≠ "Cancelled" → renderStatus st = none) ∧
    ((renderStatus "Pending").isSome = true ∧
     (renderStatus "Completed").isSome = true ∧
     (renderStatus "Failed").isSome = true ∧
     (renderStatus "Cancelled").isSome = true) ∧
    (∀ st h e, (transactionLink st h e).statusIndicator = renderStatus st) ∧
    (∀ st h e, h ≠ "" → isPre "0x".data h.data = true →
      (transactionLink st (some h) e).hashLink =
        some { href := "https://blockscan.com/tx/" ++ h, text := jsSliceText h }) ∧
    (∀ st h e, h ≠ "" → isPre "0x".data h.data = false →
      (transactionLink st (some h) e).hashLink =
        some { href := "https://solscan.io/tx/" ++ h, text := jsSliceText h }) ∧
    (∀ st h e, e ≠ "" →
      (transactionLink st h (some e)).errorText = some (formatError e)) ∧
    (∀ st e, (transactionLink st none e).hashLink = none) ∧
    (∀ st h, (transactionLink st h none).errorText = none) := by
  refine ⟨?_, ⟨rfl, rfl, rfl, rfl⟩, fun st h e => rfl, ?_, ?_, ?_,
          fun st e => rfl, fun st h => rfl⟩
  · intro st h1 h2 h3 h4
    simp [renderStatus, h1, h2, h3, h4]
  · intro st h e hne hpre
    simp [transactionLink, hne, hpre]
  · intro st h e hne hpre
    simp [transactionLink, hne, hpre]
  · intro st h e hne
    simp [transactionLink, hne]

/-- Witness for C10 (amended) at concrete inputs: an unrecognized
status renders no indicator, and a 0x hash renders a blockscan
anchor. -/
theorem renderStatus_fallthrough_witness :
    renderStatus "Approved" = none ∧
    (transactionLink "Pending" (some "0xdeadbeef") none).hashLink =
      some { href := "https://blockscan.com/tx/0xdeadbeef",
             text := jsSliceText "0xdeadbeef" } :=
  ⟨renderStatus_fallthrough.1 "Approved" (by decide) (by decide) (by decide)
      (by decide),
   renderStatus_fallthrough.2.2.2.1 "Pending" "0xdeadbeef" none (by decide)
      (by decide)⟩

/-- C7 counterexample: in the transcribed manifest the data-source
variant choice is compile-time conditional inclusion — both
data-source-bound binaries demand cargo features and every data-source
dependency is optional — refuting selection via an explicit runtime
configuration value. -/
theorem dataSourceSelection_counterexample :
    runtimeSelectedDataSource listenDataManifest = false := by decide

/-- C7 (amended): the manifest exposes the two data-source-bound run
modes as separate binaries, indexer gated on the geyser feature and
rpc-crawler gated on the rpc feature, next to an ungated main binary;
each feature enables only optional dependencies, so the choice between
data-source variants is made by compile-time conditional inclusion
through cargo features, not by a runtime configuration value. -/
theorem dataSourceSelection_amended :
    (listenDataManifest.bins.map BinTarget.name =
      ["indexer", "rpc-crawler", "main"]) ∧
    ((listenDataManifest.bins.filter
        (fun b => !b.required_features.isEmpty)).map BinTarget.name =
      ["indexer", "rpc-crawler"]) ∧
    ((listenDataManifest.bins.find? (fun b => b.name = "indexer")).map
        BinTarget.required_features = some ["geyser"]) ∧
    ((listenDataManifest.bins.find? (fun b => b.name = "rpc-crawler")).map
        BinTarget.required_features = some ["rpc"]) ∧
    (listenDataManifest.features.all
        (fun f => f.2.all
          (fun d => listenDataManifest.optional_deps.contains d)) = true) ∧
    (runtimeSelectedDataSource listenDataManifest = false) := by decide

/-! Helper lemmas on the (slot, write_version) orders. -/

theorem svLe_refl (a : Nat × Nat) : svLe a a = true := by
  simp [svLe]

theorem svLe_trans {a b c : Nat × Nat} (h1 : svLe a b = true)
    (h2 : svLe b c = true) : svLe a c = true := by
  simp only [svLe, Bool.or_eq_true, Bool.and_eq_true, decide_eq_true_eq]
    at h1 h2 ⊢
  omega

theorem svGt_le {a b : Nat × Nat} (h : svGt b a = true) : svLe a b = true := by
  simp only [svGt, Bool.or_eq_true, Bool.and_eq_true, decide_eq_true_eq] at h
  simp only [svLe, Bool.or_eq_true, Bool.and_eq_true, decide_eq_true_eq]
  omega

theorem svGt_false_le {a b : Nat × Nat} (h : svGt a b = false) :
    svLe a b = true := by
  simp only [svGt] at h
  simp at h
  simp only [svLe, Bool.or_eq_true, Bool.and_eq_true, decide_eq_true_eq]
  omega

theorem ckptLe_refl (c : Option (Nat × Nat)) : ckptLe c c = true := by
  cases c with
  | none => rfl
  | some a => exact svLe_refl a

theorem ckptLe_trans {a b c : Option (Nat × Nat)} (h1 : ckptLe a b = true)
    (h2 : ckptLe b c = true) : ckptLe a c = true := by
  cases a with
  | none => rfl
  | some x =>
    cases b with
    | none => exact absurd h1 (by simp [ckptLe])
    | some y =>
      cases c with
      | none => exact absurd h2 (by simp [ckptLe])
      | some z => exact svLe_trans h1 h2

theorem ckptLe_ckptAdd (c : Option (Nat × Nat)) (sv : Nat × Nat) :
    ckptLe c (ckptAdd c sv) = true := by
  cases c with
  | none => rfl
  | some m =>
    show svLe m (svMax m sv) = true
    unfold svMax
    split
    next h => exact svGt_le h
    next h => exact svLe_refl m

theorem sv_ckptAdd (c : Option (Nat × Nat)) (sv : Nat × Nat) :
    ckptLe (some sv) (ckptAdd c sv) = true := by
  cases c with
  | none => exact svLe_refl sv
  | some m =>
    show svLe sv (svMax m sv) = true
    unfold svMax
    split
    next h => exact svLe_refl sv
    next h => exact svGt_false_le (by simpa using h)

theorem ckptLe_ckptAfter (evs : List DecodedEvent) :
    ∀ c, ckptLe c (ckptAfter c evs) = true := by
  induction evs with
  | nil => intro c; exact ckptLe_refl c
  | cons e evs ih =>
    intro c
    exact ckptLe_trans (ckptLe_ckptAdd c (e.slot, e.write_version))
      (ih (ckptAdd c (e.slot, e.write_version)))

theorem mem_ckptAfter (evs : List DecodedEvent) :
    ∀ c ev, ev ∈ evs →
      ckptLe (some (ev.slot, ev.write_version)) (ckptAfter c evs) = true := by
  induction evs with
  | nil => intro c ev h; simp at h
  | cons e evs ih =>
    intro c ev h
    rcases List.mem_cons.mp h with he | he
    · subst he
      exact ckptLe_trans (sv_ckptAdd c (ev.slot, ev.write_version))
        (ckptLe_ckptAfter evs (ckptAdd c (ev.slot, ev.write_version)))
    · exact ih (ckptAdd c (e.slot, e.write_version)) ev he

theorem ckptAfter_isSome (evs : List DecodedEvent) :
    ∀ m, (ckptAfter (some m) evs).isSome = true := by
  induction evs with
  | nil => intro m; rfl
  | cons e evs ih => intro m; exact ih (svMax m (e.slot, e.write_version))

theorem ckptAfter_attained (evs : List DecodedEvent) :
    ∀ c, ckptAfter c evs = c ∨
      ∃ ev, ev ∈ evs ∧ ckptAfter c evs = some (ev.slot, ev.write_version) := by
  induction evs with
  | nil => intro c; exact Or.inl rfl
  | cons e evs ih =>
    intro c
    have step : ckptAfter c (e :: evs) =
        ckptAfter (ckptAdd c (e.slot, e.write_version)) evs := rfl
    cases c with
    | none =>
      rcases ih (some (e.slot, e.write_version)) with h | ⟨ev, hm, he⟩
      · exact Or.inr ⟨e, List.mem_cons_self e evs, by rw [step]; exact h⟩
      · exact Or.inr ⟨ev, List.mem_cons_of_mem e hm, by rw [step]; exact he⟩
    | some m =>
      by_cases hg : svGt (e.slot, e.write_version) m = true
      · have hadd : ckptAdd (some m) (e.slot, e.write_version) =
            some (e.slot, e.write_version) := by
          show some (svMax m _) = _
          unfold svMax
          rw [if_pos hg]
        rcases ih (some (e.slot, e.write_version)) with h | ⟨ev, hm2, he⟩
        · exact Or.inr ⟨e, List.mem_cons_self e evs,
            by rw [step, hadd]; exact h⟩
        · exact Or.inr ⟨ev, List.mem_cons_of_mem e hm2,
            by rw [step, hadd]; exact he⟩
      · have hadd : ckptAdd (some m) (e.slot, e.write_version) = some m := by
          show some (svMax m _) = _
          unfold svMax
          rw [if_neg hg]
        rcases ih (some m) with h | ⟨ev, hm2, he⟩
        · exact Or.inl (by rw [step, hadd]; exact h)
        · exact Or.inr ⟨ev, List.mem_cons_of_mem e hm2,
            by rw [step, hadd]; exact he⟩

theorem commitBatch_true_checkpoint (st : PipelineState)
    (b : List DecodedEvent) :
    (commitBatch st b true).checkpoint = ckptAfter st.checkpoint b := rfl

theorem commitAll_checkpoint (batches : List (List DecodedEvent)) :
    ∀ st, (commitAll st batches).checkpoint =
      ckptAfter st.checkpoint batches.flatten := by
  induction batches with
  | nil => intro st; rfl
  | cons b bs ih =>
    intro st
    show (commitAll (commitBatch st b true) bs).checkpoint = _
    rw [ih (commitBatch st b true), commitBatch_true_checkpoint,
      List.flatten_cons]
    simp only [ckptAfter]
    rw [List.foldl_append]

/-! Helper lemmas on processUpdate and processList. -/

theorem processUpdate_none {st : PipelineState} {u : RawAccountUpdate}
    {st1 : PipelineState} (h : processUpdate st u = (st1, none)) :
    st1 = st := by
  simp only [processUpdate] at h
  split at h
  · split at h
    · exact absurd (congrArg Prod.snd h) (by simp)
    · exact (congrArg Prod.fst h).symm
  · exact (congrArg Prod.fst h).symm

theorem processUpdate_some {st : PipelineState} {u : RawAccountUpdate}
    {st1 : PipelineState} {ev : DecodedEvent}
    (h : processUpdate st u = (st1, some ev)) :
    gateOk (st.lastApplied u.account_address)
      (u.slot, u.write_version) = true ∧
    decode u = .ok ev ∧
    (∀ x, st1.lastApplied x =
      if x = u.account_address then some (u.slot, u.write_version)
      else st.lastApplied x) ∧
    st1.checkpoint = st.checkpoint ∧ st1.store = st.store ∧
    st1.deadLetters = st.deadLetters := by
  have hg : gateOk (st.lastApplied u.account_address)
      (u.slot, u.write_version) = true := by
    by_contra hng
    have hfalse : gateOk (st.lastApplied u.account_address)
        (u.slot, u.write_version) = false := by
      simpa using hng
    have : processUpdate st u = (st, none) := by
      simp only [processUpdate]
      rw [if_neg (by simp [hfalse])]
    rw [this] at h
    exact absurd (congrArg Prod.snd h) (by simp)
  cases hd : decode u with
  | error e =>
    have : processUpdate st u = (st, none) := by
      simp only [processUpdate, hd, if_pos hg]
    rw [this] at h
    exact absurd (congrArg Prod.snd h) (by simp)
  | ok ev2 =>
    have hPU : processUpdate st u =
        ({ st with
            lastApplied := fun x =>
              if x = u.account_address then some (u.slot, u.write_version)
              else st.lastApplied x
            cache := fun x =>
              if x = u.account_address then
                some { entity_key := u.account_address
                       latest_state_snapshot := (ev2.amount_in, ev2.amount_out)
                       updated_at_slot := u.slot }
              else st.cache x }, some ev2) := by
      simp only [processUpdate, hd, if_pos hg]
    rw [hPU] at h
    have h1 := congrArg Prod.fst h
    have h2 := congrArg Prod.snd h
    simp only at h1 h2
    have hev : ev2 = ev := by simpa using h2
    subst hev
    refine ⟨hg, rfl, ?_, ?_, ?_, ?_⟩
    · intro x
      rw [← h1]
    · rw [← h1]
    · rw [← h1]
    · rw [← h1]

theorem decode_ok_fields {u : RawAccountUpdate} {ev : DecodedEvent}
    (h : decode u = .ok ev) :
    ev.entity_key = u.account_address ∧ ev.slot = u.slot ∧
    ev.write_version = u.write_version := by
  unfold decode at h
  cases hb : decodeBytes u.raw_bytes with
  | error e => rw [hb] at h; simp [Except.map] at h
  | ok p =>
    rw [hb] at h
    simp only [Except.map, Except.ok.injEq] at h
    rw [← h]
    exact ⟨rfl, rfl, rfl⟩

theorem processList_cons_none {st : PipelineState} {u : RawAccountUpdate}
    {st1 : PipelineState} (h : processUpdate st u = (st1, none))
    (us : List RawAccountUpdate) :
    processList st (u :: us) = processList st1 us := by
  simp only [processList]
  rw [h]

theorem processList_cons_some {st : PipelineState} {u : RawAccountUpdate}
    {st1 : PipelineState} {ev : DecodedEvent}
    (h : processUpdate st u = (st1, some ev)) (us : List RawAccountUpdate) :
    processList st (u :: us) =
      ((processList st1 us).1, ev :: (processList st1 us).2) := by
  simp only [processList]
  rw [h]

theorem processList_chain (us : List RawAccountUpdate) :
    ∀ st k, List.Chain' (fun a b => svGt b a = true)
      (optList (st.lastApplied k) ++ perKeySvs (processList st us).2 k) := by
  induction us with
  | nil =>
    intro st k
    simp only [processList, perKeySvs, List.filter_nil, List.map_nil,
      List.append_nil]
    cases st.lastApplied k with
    | none => exact List.chain'_nil
    | some l => exact List.chain'_singleton l
  | cons u us ih =>
    intro st k
    rcases hpu : processUpdate st u with ⟨st1, o⟩
    cases o with
    | none =>
      have hst := processUpdate_none hpu
      subst hst
      rw [processList_cons_none hpu us]
      exact ih st1 k
    | some ev =>
      obtain ⟨hg, hd, hla, _, _, _⟩ := processUpdate_some hpu
      obtain ⟨hek, hes, hew⟩ := decode_ok_fields hd
      rw [processList_cons_some hpu us]
      have hperk : perKeySvs (ev :: (processList st1 us).2) k =
          if ev.entity_key = k then
            (ev.slot, ev.write_version) :: perKeySvs (processList st1 us).2 k
          else perKeySvs (processList st1 us).2 k := by
        simp only [perKeySvs, List.filter_cons]
        by_cases hc : ev.entity_key = k
        · simp [hc]
        · simp [hc]
      by_cases hk : ev.entity_key = k
      · have hak : u.account_address = k := by rw [← hek, hk]
        rw [hperk, if_pos hk, hes, hew]
        have ihh := ih st1 k
        rw [hla k, if_pos hak.symm] at ihh
        simp only [optList, List.cons_append, List.nil_append] at ihh
        cases hl : st.lastApplied k with
        | none =>
          simpa only [optList, List.nil_append] using ihh
        | some l =>
          simp only [optList, List.cons_append, List.nil_append]
          rw [List.chain'_cons]
          constructor
          · rw [hak] at hg
            rw [hl] at hg
            exact hg
          · exact ihh
      · have hak : ¬ (k = u.account_address) := by
          intro hkk
          exact hk (by rw [hek, ← hkk])
        rw [hperk, if_neg hk]
        have ihh := ih st1 k
        rw [hla k, if_neg hak] at ihh
        exact ihh

/-! Helper lemmas on the upsert. -/

theorem upsert_any (s : List Row) (ev : DecodedEvent) :
    (upsertRow s ev).any (fun r => r.key = ikey ev) = true := by
  unfold upsertRow
  split
  next h =>
    rw [List.any_map]
    rw [List.any_eq_true] at h ⊢
    obtain ⟨r, hr, hpr⟩ := h
    simp only [decide_eq_true_eq] at hpr
    exact ⟨r, hr, by simp [hpr]⟩
  next h =>
    rw [List.any_append]
    simp

theorem upsert_fix (s : List Row) (ev : DecodedEvent) :
    ∀ r ∈ upsertRow s ev,
      (if r.key = ikey ev then ({ key := ikey ev, event := ev } : Row)
       else r) = r := by
  intro r hr
  unfold upsertRow at hr
  split at hr
  next h =>
    obtain ⟨x, hx, hfx⟩ := List.mem_map.mp hr
    by_cases hpx : x.key = ikey ev
    · rw [if_pos hpx] at hfx
      rw [← hfx]
      simp
    · rw [if_neg hpx] at hfx
      rw [← hfx, if_neg hpx]
  next h =>
    rw [Bool.not_eq_true] at h
    rcases List.mem_append.mp hr with hx | hx
    · have hnk : ¬ (r.key = ikey ev) := by
        have := List.any_eq_false.mp h r hx
        simpa using this
      rw [if_neg hnk]
    · simp only [List.mem_singleton] at hx
      subst hx
      simp

theorem upsert_absorb (s : List Row) (ev : DecodedEvent) :
    upsertRow (upsertRow s ev) ev = upsertRow s ev := by
  have hany := upsert_any s ev
  have hunf : upsertRow (upsertRow s ev) ev =
      if (upsertRow s ev).any (fun r => r.key = ikey ev) then
        (upsertRow s ev).map (fun r =>
          if r.key = ikey ev then { key := ikey ev, event := ev } else r)
      else (upsertRow s ev) ++ [{ key := ikey ev, event := ev }] := rfl
  rw [hunf, if_pos hany]
  calc (upsertRow s ev).map (fun r =>
          if r.key = ikey ev then { key := ikey ev, event := ev } else r)
      = (upsertRow s ev).map id :=
        List.map_congr_left (fun r hr => upsert_fix s ev r hr)
    _ = upsertRow s ev := List.map_id _

theorem upsert_keys_nodup (s : List Row) (ev : DecodedEvent)
    (h : (s.map Row.key).Nodup) : ((upsertRow s ev).map Row.key).Nodup := by
  unfold upsertRow
  split
  next ha =>
    rw [List.map_map]
    have heq : s.map (Row.key ∘ fun r =>
        if r.key = ikey ev then ({ key := ikey ev, event := ev } : Row)
        else r) = s.map Row.key := by
      apply List.map_congr_left
      intro r hr
      simp only [Function.comp]
      by_cases hpr : r.key = ikey ev
      · rw [if_pos hpr]
        exact hpr.symm
      · rw [if_neg hpr]
    rw [heq]
    exact h
  next ha =>
    rw [Bool.not_eq_true] at ha
    rw [List.map_append, List.nodup_append]
    refine ⟨h, by simp, ?_⟩
    intro a hmem hmem2
    simp only [List.map_cons, List.map_nil, List.mem_singleton] at hmem2
    subst hmem2
    obtain ⟨r, hr, hkey⟩ := List.mem_map.mp hmem
    have := List.any_eq_false.mp ha r hr
    simp only [decide_eq_true_eq] at this
    exact this hkey

theorem filter_key_len (K : Nat × Nat × Nat) :
    ∀ s : List Row, (s.map Row.key).Nodup →
      s.any (fun r => r.key = K) = true →
      (s.filter (fun r => r.key = K)).length = 1 := by
  intro s
  induction s with
  | nil => intro _ hany; simp at hany
  | cons r rs ih =>
    intro hnd hany
    rw [List.map_cons, List.nodup_cons] at hnd
    obtain ⟨hnotin, hnd2⟩ := hnd
    rw [List.filter_cons]
    by_cases hp : r.key = K
    · rw [if_pos (by simp [hp])]
      have hnil : List.filter (fun x => decide (x.key = K)) rs = [] := by
        rw [List.filter_eq_nil_iff]
        intro a ha
        simp only [decide_eq_true_eq]
        intro haK
        exact hnotin (List.mem_map.mpr ⟨a, ha, by rw [haK, hp]⟩)
      simp [hnil]
    · rw [if_neg (by simp [hp])]
      apply ih hnd2
      rw [List.any_cons] at hany
      simpa [hp] using hany

/-- C1: per entity key, an update is applied only if its (slot,
write_version) is strictly greater than the last applied value for
that key; a late or duplicate update is a complete no-op — no event is
emitted and the whole state, cache and checkpoint included, is
unchanged; an applied update records its key as the new last applied
value; and across any processed sequence the applied (slot,
write_version) values of one entity key form a strictly increasing
chain, so updates are never reordered. -/
theorem perKeyOrderingGate :
    (∀ st u,
      gateOk (st.lastApplied u.account_address)
        (u.slot, u.write_version) = false →
      processUpdate st u = (st, none)) ∧
    (∀ st u st1 ev, processUpdate st u = (st1, some ev) →
      gateOk (st.lastApplied u.account_address)
        (u.slot, u.write_version) = true ∧
      st1.lastApplied u.account_address = some (u.slot, u.write_version) ∧
      ev.entity_key = u.account_address ∧ ev.slot = u.slot ∧
      ev.write_version = u.write_version ∧
      st1.checkpoint = st.checkpoint) ∧
    (∀ st us k, List.Chain' (fun a b => svGt b a = true)
      (optList (st.lastApplied k) ++ perKeySvs (processList st us).2 k)) := by
  refine ⟨?_, ?_, fun st us k => processList_chain us st k⟩
  · intro st u h
    simp only [processUpdate]
    rw [if_neg (by simp [h])]
  · intro st u st1 ev h
    obtain ⟨hg, hd, hla, hck, _, _⟩ := processUpdate_some h
    obtain ⟨hek, hes, hew⟩ := decode_ok_fields hd
    exact ⟨hg, by rw [hla]; simp, hek, hes, hew, hck⟩

/-- Witness for C1: a duplicate update carrying exactly the last
applied (10, 5) is discarded as a no-op on a concrete state. -/
theorem perKeyOrderingGate_witness :
    gateOk (stC1.lastApplied updC1.account_address)
      (updC1.slot, updC1.write_version) = false ∧
    processUpdate stC1 updC1 = (stC1, none) :=
  ⟨by decide, perKeyOrderingGate.1 stC1 updC1 (by decide)⟩

/-- C2: decode is deterministic and stateless: the result of decoding
an update in any sequence of invocations is the plain function value
of that update alone, unaffected by prior or later calls, and for two
updates carrying byte-identical payloads the success of decoding and
the error classification coincide. -/
theorem decodeDeterministic :
    (∀ pre post u, runDecodes (pre ++ u :: post) =
      runDecodes pre ++ decode u :: runDecodes post) ∧
    (∀ u v, u.raw_bytes = v.raw_bytes →
      (decode u).isOk = (decode v).isOk ∧
      ∀ e, (decode u = .error e ↔ decode v = .error e)) := by
  constructor
  · intro pre post u
    simp [runDecodes]
  · intro u v h
    unfold decode
    rw [h]
    cases hb : decodeBytes v.raw_bytes with
    | error e0 => simp [Except.map, Except.isOk, Except.toBool]
    | ok p => simp [Except.map, Except.isOk, Except.toBool]

/-- Witness for C2: two updates differing in every envelope field but
carrying the same bytes classify identically. -/
theorem decodeDeterministic_witness :
    (decode updC2a).isOk = (decode updC2b).isOk :=
  (decodeDeterministic.2 updC2a updC2b rfl).1

/-- C3: sink writes are idempotent under the idempotency key:
upserting the same decoded event twice is literally absorbed into one
upsert, and on a store with no duplicate keys the result of the double
submission holds exactly one row for that key, while keys stay free of
duplicates. -/
theorem sinkIdempotent :
    (∀ s ev, upsertRow (upsertRow s ev) ev = upsertRow s ev) ∧
    (∀ s ev, (s.map Row.key).Nodup →
      ((upsertRow s ev).map Row.key).Nodup ∧
      ((upsertRow (upsertRow s ev) ev).filter
        (fun r => r.key = ikey ev)).length = 1) := by
  refine ⟨upsert_absorb, fun s ev h => ⟨upsert_keys_nodup s ev h, ?_⟩⟩
  rw [upsert_absorb]
  exact filter_key_len (ikey ev) (upsertRow s ev)
    (upsert_keys_nodup s ev h) (upsert_any s ev)

/-- Witness for C3: double submission of a concrete event to the empty
store leaves exactly one row for its key. -/
theorem sinkIdempotent_witness :
    ((upsertRow (upsertRow [] evC3) evC3).filter
      (fun r => r.key = ikey evC3)).length = 1 :=
  (sinkIdempotent.2 [] evC3 (by simp)).2

/-- C4: the checkpoint is monotonic non-decreasing under successful
commits and preserved by a restart; it does not move on a failed
commit, advancing only in the branch where the durable upsert and the
cache refresh happened; and after any run of consecutive successful
batch commits it equals the maximum (slot, write_version) over the
starting value and all committed events — an upper bound on every
committed event and attained by one of them. -/
theorem checkpointMonotone :
    (∀ st b, ckptLe st.checkpoint (commitBatch st b true).checkpoint = true) ∧
    (∀ st b, commitBatch st b false = st) ∧
    (∀ st : PipelineState, (restartPipeline st).checkpoint = st.checkpoint) ∧
    (∀ st batches, (commitAll st batches).checkpoint =
      ckptAfter st.checkpoint batches.flatten) ∧
    (∀ st batches ev, ev ∈ batches.flatten →
      ckptLe (some (ev.slot, ev.write_version))
        (commitAll st batches).checkpoint = true) ∧
    (∀ st batches, st.checkpoint = none → batches.flatten ≠ [] →
      ∃ ev, ev ∈ batches.flatten ∧
        (commitAll st batches).checkpoint =
          some (ev.slot, ev.write_version)) := by
  refine ⟨?_, ?_, fun st => rfl, fun st batches => commitAll_checkpoint batches st,
    ?_, ?_⟩
  · intro st b
    rw [commitBatch_true_checkpoint]
    exact ckptLe_ckptAfter b st.checkpoint
  · intro st b
    rfl
  · intro st batches ev hmem
    rw [commitAll_checkpoint batches st]
    exact mem_ckptAfter batches.flatten st.checkpoint ev hmem
  · intro st batches hnone hne
    rw [commitAll_checkpoint batches st, hnone]
    rcases ckptAfter_attained batches.flatten none with h | ⟨ev, hm, he⟩
    · exfalso
      cases hfl : batches.flatten with
      | nil => exact hne hfl
      | cons e rest =>
        rw [hfl] at h
        exact absurd h (by
          have : ckptAfter (none : Option (Nat × Nat)) (e :: rest) =
              ckptAfter (some (e.slot, e.write_version)) rest := rfl
          rw [this]
          intro hcontr
          have hs := ckptAfter_isSome rest (e.slot, e.write_version)
          rw [hcontr] at hs
          simp at hs)
    · exact ⟨ev, hm, he⟩

/-- Witness for C4: committing one concrete batch of two events from
an empty checkpoint bounds both events and lands exactly on one of
them. -/
theorem checkpointMonotone_witness :
    ckptLe (some (evC4a.slot, evC4a.write_version))
      (commitAll stC4 [[evC4a, evC4b]]).checkpoint = true ∧
    ∃ ev, ev ∈ ([[evC4a, evC4b]] : List (List DecodedEvent)).flatten ∧
      (commitAll stC4 [[evC4a, evC4b]]).checkpoint =
        some (ev.slot, ev.write_version) :=
  ⟨checkpointMonotone.2.2.2.2.1 stC4 [[evC4a, evC4b]] evC4a (by simp),
   checkpointMonotone.2.2.2.2.2 stC4 [[evC4a, evC4b]] rfl (by simp)⟩

/-- C5: a decode error on one update is isolated to that update: the
pipeline step for it returns the state unchanged and emits nothing,
and processing a batch containing the failed update yields exactly the
state and events of the batch with that update removed, so the valid
updates of the batch commit neither blocked nor corrupted. -/
theorem decodeErrorIsolated :
    (∀ st u e, decode u = .error e → processUpdate st u = (st, none)) ∧
    (∀ st pre post u e, decode u = .error e →
      processList st (pre ++ u :: post) = processList st (pre ++ post)) := by
  have harm1 : ∀ (st : PipelineState) u e, decode u = .error e →
      processUpdate st u = (st, none) := by
    intro st u e h
    simp only [processUpdate]
    by_cases hg : gateOk (st.lastApplied u.account_address)
        (u.slot, u.write_version) = true
    · rw [if_pos hg, h]
    · rw [if_neg hg]
  refine ⟨harm1, ?_⟩
  intro st pre post u e h
  induction pre generalizing st with
  | nil =>
    simp only [List.nil_append]
    rw [processList_cons_none (harm1 st u e h) post]
  | cons p ps ih =>
    simp only [List.cons_append]
    rcases hpu : processUpdate st p with ⟨st1, o⟩
    cases o with
    | none =>
      rw [processList_cons_none hpu (ps ++ u :: post),
        processList_cons_none hpu (ps ++ post)]
      exact ih st1
    | some ev =>
      rw [processList_cons_some hpu (ps ++ u :: post),
        processList_cons_some hpu (ps ++ post), ih st1]

/-- Witness for C5: a batch holding only an update with an unknown
discriminator processes exactly like the empty batch. -/
theorem decodeErrorIsolated_witness :
    processList stC5 [updC5] = processList stC5 [] :=
  decodeErrorIsolated.2 stC5 [] [] updC5 .unrecognized rfl

/-- C6: the retry delay doubles on every attempt (exponential
backoff); when every attempt up to the fixed ceiling fails, the batch
is recorded as a dead letter and neither the checkpoint nor the store
advances past it — the pipeline stalls on that batch; when some
attempt below the ceiling succeeds, the batch commits normally. -/
theorem retryCeilingDeadLetter :
    (∀ base a, backoffDelay base (a + 1) = 2 * backoffDelay base a) ∧
    (∀ st batch ok ceiling, (∀ i, i < ceiling → ok i = false) →
      (sinkWriteWithRetry st batch ok ceiling).checkpoint = st.checkpoint ∧
      (sinkWriteWithRetry st batch ok ceiling).store = st.store ∧
      (sinkWriteWithRetry st batch ok ceiling).deadLetters =
        batch :: st.deadLetters) ∧
    (∀ st batch ok ceiling, (∃ i, i < ceiling ∧ ok i = true) →
      sinkWriteWithRetry st batch ok ceiling = commitBatch st batch true) := by
  refine ⟨?_, ?_, ?_⟩
  · intro base a
    simp only [backoffDelay, pow_succ]
    ring
  · intro st batch ok ceiling h
    have hf : firstOkAttempt ok ceiling = none := by
      rw [firstOkAttempt, List.find?_eq_none]
      intro x hx
      simp [h x (List.mem_range.mp hx)]
    have hrw : sinkWriteWithRetry st batch ok ceiling =
        { st with deadLetters := batch :: st.deadLetters } := by
      simp only [sinkWriteWithRetry, hf]
    rw [hrw]
    exact ⟨rfl, rfl, rfl⟩
  · intro st batch ok ceiling h
    obtain ⟨i, hi, hoki⟩ := h
    have hf : (firstOkAttempt ok ceiling).isSome = true := by
      rw [firstOkAttempt, List.find?_isSome]
      exact ⟨i, List.mem_range.mpr hi, hoki⟩
    cases hfa : firstOkAttempt ok ceiling with
    | none => rw [hfa] at hf; simp at hf
    | some j => simp only [sinkWriteWithRetry, hfa]

/-- Witness for C6: with a durable store failing on every attempt
below a ceiling of three, a concrete batch dead-letters and the
checkpoint stays put. -/
theorem retryCeilingDeadLetter_witness :
    (sinkWriteWithRetry stC6 [evC6] (fun _ => false) 3).checkpoint =
      stC6.checkpoint ∧
    (sinkWriteWithRetry stC6 [evC6] (fun _ => false) 3).deadLetters =
      [[evC6]] :=
  ⟨(retryCeilingDeadLetter.2.1 stC6 [evC6] (fun _ => false) 3
      (fun _ _ => rfl)).1,
   (retryCeilingDeadLetter.2.1 stC6 [evC6] (fun _ => false) 3
      (fun _ _ => rfl)).2.2⟩

end Listen
